import Mathlib

/-!
Verification of the job-record model and statistics engine of
`att_tools.py` (functions `create_job` and `compute_stats`).

Shallow embedding conventions:
* A Python job dict is modelled by the structure `Job`.  The string-valued
  keys are `Option String` (`Option.none` models both a missing key and a
  `None` value, which `dict.get` does not distinguish for these fields).
  The `duration` and `duration_minutes` keys may hold a number, a string or
  be missing, modelled by `DurVal`.
* Python floats are modelled by exact rationals `ℚ`; `round(x, 2)` is
  modelled by round-half-to-even at two decimals (`round2`).  Binary
  floating-point representation error, `inf`/`nan` literals and numeric
  underscore grouping are not modelled.
* Code that can raise (`float(...)` on a non-numeric string) returns
  `Except String`; `Except.error "ValueError"` models the raised exception.
* `datetime.now().strftime(...)` is modelled by passing the formatted
  wall-clock string `now` as an explicit argument to `create_job`.
-/

/-- Value found under the `duration` / `duration_minutes` keys of a job
dict: missing (or Python `None`), a number, or a string. -/
inductive DurVal where
  | none : DurVal
  | num : ℚ → DurVal
  | str : String → DurVal
deriving DecidableEq

/-- A job dict as built by `create_job` / consumed by `compute_stats`. -/
structure Job where
  id : Option String
  address : Option String
  issue : Option String
  resolution : Option String
  signal : Option String
  start_time : Option String
  end_time : Option String
  duration : DurVal
  duration_minutes : DurVal
  tech : Option String
  tech_name : Option String
deriving DecidableEq

/-- The dict returned by `compute_stats`.  `most_common_issue` is
`Option String`: `Option.none` models the key being absent (the empty-input
branch of the Python code does not put the key in the dict). -/
structure StatsReport where
  total_jobs : Nat
  total_minutes : ℚ
  avg_minutes : ℚ
  longest_job : Option Job
  shortest_job : Option Job
  jobs_per_tech : List (String × Nat)
  jobs_per_address : List (String × Nat)
  jobs_per_day : List (String × Nat)
  bad_signal_count : Nat
  bad_signal_percent : ℚ
  most_common_issue : Option String
deriving DecidableEq

/-- The whitespace characters removed by Python `str.strip()` (ASCII part). -/
def isPyWhitespace (c : Char) : Bool :=
  c == ' ' || c == '\t' || c == '\n' || c == '\x0d' || c == '\x0b' || c == '\x0c'

/-- Python `str.strip()`: remove leading and trailing whitespace. -/
def pyStrip (s : String) : String :=
  String.mk (((s.toList.dropWhile isPyWhitespace).reverse.dropWhile isPyWhitespace).reverse)

/-- Python `str.lower()` (ASCII behaviour). -/
def pyLower (s : String) : String := s.toLower

/-- Numeric value of a list of decimal digit characters. -/
def digitsToNat (l : List Char) : Nat :=
  l.foldl (fun a c => 10 * a + (c.toNat - 48)) 0

/-- Exponent part of a Python float literal: optional sign then digits. -/
def parseExpPart : List Char → Option Int
  | '+' :: ds => if !ds.isEmpty && ds.all Char.isDigit then some (Int.ofNat (digitsToNat ds)) else Option.none
  | '-' :: ds => if !ds.isEmpty && ds.all Char.isDigit then some (-(Int.ofNat (digitsToNat ds))) else Option.none
  | ds => if !ds.isEmpty && ds.all Char.isDigit then some (Int.ofNat (digitsToNat ds)) else Option.none

/-- Python `float(s)` on a string: optional surrounding whitespace, optional
sign, digits with optional fraction, optional exponent.  Returns
`Option.none` when `float` would raise `ValueError`.  (`inf`/`nan` and digit
underscores are outside the exact-rational model and not parsed.) -/
def pyParseFloat (s : String) : Option ℚ :=
  let cs := ((s.toList.dropWhile isPyWhitespace).reverse.dropWhile isPyWhitespace).reverse
  let sgn : ℚ := match cs with | '-' :: _ => -1 | _ => 1
  let cs1 := match cs with | '+' :: r => r | '-' :: r => r | _ => cs
  let intPart := cs1.takeWhile Char.isDigit
  let cs2 := cs1.dropWhile Char.isDigit
  let fracPart := match cs2 with | '.' :: r => r.takeWhile Char.isDigit | _ => []
  let cs3 := match cs2 with | '.' :: r => r.dropWhile Char.isDigit | _ => cs2
  if intPart.isEmpty && fracPart.isEmpty then Option.none
  else
    let mant : ℚ := (digitsToNat intPart : ℚ) + (digitsToNat fracPart : ℚ) / ((10 : ℚ) ^ fracPart.length)
    match cs3 with
    | [] => some (sgn * mant)
    | 'e' :: r =>
      match parseExpPart r with
      | some e => some (sgn * mant * (10 : ℚ) ^ e)
      | Option.none => Option.none
    | 'E' :: r =>
      match parseExpPart r with
      | some e => some (sgn * mant * (10 : ℚ) ^ e)
      | Option.none => Option.none
    | _ => Option.none

/-- `float(job.get("duration", 0.0) or 0.0)` from the per-job loop of
`compute_stats`: a missing key or `None` gives the default `0.0`; a falsy
value (`0`, `""`) becomes `0.0`; a non-empty string goes through `float`,
which raises `ValueError` when the string is not numeric. -/
def getDurCoerced (j : Job) : Except String ℚ :=
  match j.duration with
  | DurVal.none => Except.ok 0
  | DurVal.num q => Except.ok q
  | DurVal.str s =>
    if s = "" then Except.ok 0
    else
      match pyParseFloat s with
      | some q => Except.ok q
      | Option.none => Except.error "ValueError"

/-- The durations gathered by the per-job loop, in input order.  The loop
raises at the first job whose duration fails to coerce; all other loop work
is infallible, so collecting durations first is observably equivalent. -/
def durList : List Job → Except String (List ℚ)
  | [] => Except.ok []
  | j :: rest =>
    match getDurCoerced j with
    | Except.error e => Except.error e
    | Except.ok d =>
      match durList rest with
      | Except.error e => Except.error e
      | Except.ok ds => Except.ok (d :: ds)

/-- `x or "Unknown"` on an optional string field (Python falsy: missing,
`None` or the empty string). -/
def orUnknown : Option String → String
  | some s => if s = "" then "Unknown" else s
  | Option.none => "Unknown"

/-- `job.get("tech") or "Unknown"`. -/
def techLabel (j : Job) : String := orUnknown j.tech

/-- `job.get("address") or "Unknown"`. -/
def addressLabel (j : Job) : String := orUnknown j.address

/-- `job.get("issue") or "Unknown"`. -/
def issueLabel (j : Job) : String := orUnknown j.issue

/-- `(job.get("signal") or "").lower()`. -/
def sigLower (j : Job) : String := pyLower (Option.getD j.signal "")

/-- `start[:10] if len(start) >= 10 else "Unknown"` where
`start = job.get("start_time") or ""`. -/
def dateKey (j : Job) : String :=
  let start := Option.getD j.start_time ""
  if 10 ≤ start.length then String.mk (start.toList.take 10) else "Unknown"

/-- One `Counter` increment: bump the key's entry in place, or append a new
entry at the end (Python dicts keep insertion order). -/
def counterAdd : List (String × Nat) → String → List (String × Nat)
  | [], k => [(k, 1)]
  | (k', n) :: rest, k =>
    if k' = k then (k, n + 1) :: rest else (k', n) :: counterAdd rest k

/-- `collections.Counter(l)` over strings, as an association list whose keys
appear in order of first occurrence. -/
def counter (l : List String) : List (String × Nat) := l.foldl counterAdd []

/-- Dict lookup `d.get(k)` on the association-list model of a dict. -/
def lookupS (k : String) : List (String × Nat) → Option Nat
  | [] => Option.none
  | (k', n) :: t => if k' = k then some n else lookupS k t

/-- The `bad_signal_words` set of `compute_stats`. -/
def badSignalWords : List String := ["bad", "poor", "weak", "low"]

/-- Whether the first character list starts with the second. -/
def startsWithChars : List Char → List Char → Bool
  | _, [] => true
  | [], _ :: _ => false
  | c :: cs, d :: ds => c == d && startsWithChars cs ds

/-- Whether `pat` occurs as a contiguous sublist of the second argument. -/
def hasSubChars (pat : List Char) : List Char → Bool
  | [] => pat.isEmpty
  | c :: rest => startsWithChars (c :: rest) pat || hasSubChars pat rest

/-- Python `pat in s` substring test. -/
def pyIn (pat s : String) : Bool := hasSubChars pat.toList s.toList

/-- `any(word in s for word in bad_signal_words)`. -/
def isBadSignal (s : String) : Bool := badSignalWords.any (fun w => pyIn w s)

/-- Python `sum(...)` over rationals: left fold of addition from `0`. -/
def sumQ (l : List ℚ) : ℚ := l.foldl (fun a b => a + b) 0

/-- Python `round` to integer: round half to even (banker's rounding). -/
def roundHalfEven (q : ℚ) : Int :=
  let f := Int.floor q
  if q - f < 1 / 2 then f
  else if (1 : ℚ) / 2 < q - f then f + 1
  else if f % 2 = 0 then f else f + 1

/-- Python `round(q, 2)` in the exact-rational model. -/
def round2 (q : ℚ) : ℚ := ((roundHalfEven (q * 100) : ℚ)) / 100

/-- Python `max(l, key=v)`: left fold that replaces the current best only on
a strictly larger key, so the first element attaining the maximum wins. -/
def firstMaxBy {α β : Type} [LinearOrder β] (v : α → β) : List α → Option α
  | [] => Option.none
  | a :: rest => some (rest.foldl (fun best x => if v best < v x then x else best) a)

/-- Python `min(l, key=v)`: left fold that replaces the current best only on
a strictly smaller key, so the first element attaining the minimum wins. -/
def firstMinBy {α β : Type} [LinearOrder β] (v : α → β) : List α → Option α
  | [] => Option.none
  | a :: rest => some (rest.foldl (fun best x => if v x < v best then x else best) a)

/-- Maximum of a list of rationals (`0` for the empty list, which the code
never queries). -/
def qmax : List ℚ → ℚ
  | [] => 0
  | d :: t => t.foldl max d

/-- Minimum of a list of rationals (`0` for the empty list). -/
def qmin : List ℚ → ℚ
  | [] => 0
  | d :: t => t.foldl min d

/-- The dict literal returned by `compute_stats` on empty input.  It has no
`most_common_issue` key, hence `Option.none` in that field. -/
def emptyReport : StatsReport :=
  StatsReport.mk 0 0 0 Option.none Option.none [] [] [] 0 0 Option.none

/-- The non-empty branch of `compute_stats`, given the coerced durations
`ds` of `jobs` (same length, same order). -/
def computeNonempty (jobs : List Job) (ds : List ℚ) : StatsReport :=
  let durations := ds.zip jobs
  let techs := jobs.map techLabel
  let addresses := jobs.map addressLabel
  let issues := jobs.map issueLabel
  let signals := jobs.map sigLower
  let dates := jobs.map dateKey
  let total_jobs := durations.length
  let total_minutes := sumQ (durations.map Prod.fst)
  let avg_minutes : ℚ := if total_jobs = 0 then 0 else total_minutes / (total_jobs : ℚ)
  let longest_job := (firstMaxBy Prod.fst durations).map Prod.snd
  let shortest_job := (firstMinBy Prod.fst durations).map Prod.snd
  let bad_signal_count := (signals.filter isBadSignal).length
  let bad_signal_percent : ℚ :=
    if total_jobs = 0 then 0 else ((bad_signal_count : ℚ) / (total_jobs : ℚ)) * 100
  let most_common_issue : String :=
    if issues.isEmpty then "N/A"
    else
      match firstMaxBy Prod.snd (counter issues) with
      | some p => p.1
      | Option.none => "N/A"
  StatsReport.mk total_jobs (round2 total_minutes) (round2 avg_minutes) longest_job
    shortest_job (counter techs) (counter addresses) (counter dates) bad_signal_count
    (round2 bad_signal_percent) (some most_common_issue)

/-- `compute_stats(jobs)` of `att_tools.py`.  The `Option.none` arm of the
inner `match` in `computeNonempty` is unreachable (a `Counter` over a
non-empty list is non-empty); in Python that spot would be an `IndexError`
on `most_common(1)[0]`, which the guard `if issues` prevents. -/
def compute_stats (jobs : List Job) : Except String StatsReport :=
  if jobs.isEmpty then Except.ok emptyReport
  else
    match durList jobs with
    | Except.error e => Except.error e
    | Except.ok ds => Except.ok (computeNonempty jobs ds)

/-- `create_job` of `att_tools.py`.  `now` is the string
`datetime.now().strftime(TIME_FORMAT)`, captured once and used for both
timestamps.  `str(job_id)` on a string input is the identity. -/
def create_job (job_id address issue resolution signal tech_name now : String) : Job :=
  Job.mk (some (pyStrip job_id)) (some (pyStrip address)) (some (pyStrip issue))
    (some (pyStrip resolution)) (some (pyStrip signal)) (some now) (some now)
    (DurVal.num 0) (DurVal.num 0) (some (pyStrip tech_name)) (some (pyStrip tech_name))

/-- Replace a job's `duration_minutes` value, leaving every other key
unchanged (used to state that `compute_stats` never reads this key). -/
def setDurMin (v : DurVal) (j : Job) : Job :=
  Job.mk j.id j.address j.issue j.resolution j.signal j.start_time j.end_time
    j.duration v j.tech j.tech_name

/-- Apply a record transformation to the two embedded job records of a
report, leaving all aggregate fields unchanged. -/
def mapReportJobs (f : Job → Job) (r : StatsReport) : StatsReport :=
  StatsReport.mk r.total_jobs r.total_minutes r.avg_minutes (r.longest_job.map f)
    (r.shortest_job.map f) r.jobs_per_tech r.jobs_per_address r.jobs_per_day
    r.bad_signal_count r.bad_signal_percent r.most_common_issue

/-- Per-job side condition of the amended C1: the `duration` value, if it is
a string, is empty or parses as a float, so `float` cannot raise on it. -/
def durParseOk (j : Job) : Bool :=
  match j.duration with
  | DurVal.str s => s == "" || (pyParseFloat s).isSome
  | _ => true

/-- A job dict with every key missing except a given `duration` value. -/
def jobD (d : DurVal) : Job :=
  Job.mk Option.none Option.none Option.none Option.none Option.none Option.none
    Option.none d DurVal.none Option.none Option.none

/-- Sample record used by concrete witnesses: duration 5, good signal. -/
def wJobA : Job :=
  Job.mk (some "1") (some "A") (some "Drop") (some "r") (some "Good")
    (some "2025-11-17 16:00") (some "2025-11-17 16:05") (DurVal.num 5) (DurVal.num 5)
    (some "Jose") (some "Jose")

/-- Sample record used by concrete witnesses: duration 5 (ties with `wJobA`). -/
def wJobB : Job :=
  Job.mk (some "2") (some "A") (some "Slow") (some "r") (some "Bad")
    (some "2025-11-18 09:00") (some "2025-11-18 09:05") (DurVal.num 5) (DurVal.num 5)
    (some "Jose") (some "Jose")

/-- Sample record used by concrete witnesses: duration 3, short timestamp. -/
def wJobC : Job :=
  Job.mk (some "3") (some "B") (some "Slow") (some "r") (some "bad wifi")
    (some "bad") (some "bad") (DurVal.num 3) (DurVal.num 3)
    (some "Ana") (some "Ana")

/-- Witness collection shared by several concrete witnesses. -/
def witnessJobs : List Job := [wJobA, wJobB, wJobC]

/-- The coerced durations of `witnessJobs`. -/
def witnessDurs : List ℚ := [5, 5, 3]

/-- The report of `witnessJobs`. -/
def witnessReport : StatsReport := computeNonempty witnessJobs witnessDurs

/-- A record whose `issue` key holds the empty string. -/
def jobIssueEmpty : Job :=
  Job.mk Option.none Option.none (some "") Option.none Option.none Option.none
    Option.none DurVal.none DurVal.none Option.none Option.none

/-- A record with a caller-supplied issue text. -/
def jobIssueSlow : Job :=
  Job.mk Option.none Option.none (some "Slow WiFi") Option.none Option.none Option.none
    Option.none DurVal.none DurVal.none Option.none Option.none

/-- Collection where the records with missing or empty `issue` outnumber the
one with a real issue text. -/
def unknownIssueJobs : List Job := [jobD DurVal.none, jobIssueEmpty, jobIssueSlow]

/-- The report of `unknownIssueJobs`. -/
def unknownIssueReport : StatsReport := computeNonempty unknownIssueJobs [0, 0, 0]

/-- A concrete record built by the factory, for the `create_job` witness. -/
def sampleJob : Job :=
  create_job " 7 " " 1 Main St " "Low Light" "Replaced bulb" "Good" " Jose "
    "2025-11-17 16:00"

/-! ### Helper lemmas about folds computing maxima and minima -/

theorem le_foldl_max {β : Type} [LinearOrder β] (l : List β) (b : β) :
    b ≤ l.foldl max b := by
  induction l generalizing b with
  | nil => exact le_refl b
  | cons x t ih => exact le_trans (le_max_left b x) (ih (max b x))

theorem mem_le_foldl_max {β : Type} [LinearOrder β] (l : List β) (b : β) :
    ∀ x ∈ l, x ≤ l.foldl max b := by
  induction l generalizing b with
  | nil => intro x hx; cases hx
  | cons y t ih =>
    intro x hx
    rcases List.mem_cons.mp hx with h | h
    · subst h
      exact le_trans (le_max_right b x) (le_foldl_max t (max b x))
    · exact ih (max b y) x h

theorem foldl_max_mem_or {β : Type} [LinearOrder β] (l : List β) (b : β) :
    l.foldl max b ∈ l ∨ l.foldl max b = b := by
  induction l generalizing b with
  | nil => exact Or.inr rfl
  | cons y t ih =>
    rcases ih (max b y) with h | h
    · exact Or.inl (List.mem_cons_of_mem y h)
    · rcases max_choice b y with hb | hy
      · exact Or.inr (by rw [List.foldl_cons, h, hb])
      · exact Or.inl (by rw [List.foldl_cons, h, hy]; exact List.mem_cons_self y t)

theorem foldl_min_le {β : Type} [LinearOrder β] (l : List β) (b : β) :
    l.foldl min b ≤ b := by
  induction l generalizing b with
  | nil => exact le_refl b
  | cons x t ih => exact le_trans (ih (min b x)) (min_le_left b x)

theorem foldl_min_le_mem {β : Type} [LinearOrder β] (l : List β) (b : β) :
    ∀ x ∈ l, l.foldl min b ≤ x := by
  induction l generalizing b with
  | nil => intro x hx; cases hx
  | cons y t ih =>
    intro x hx
    rcases List.mem_cons.mp hx with h | h
    · subst h
      exact le_trans (foldl_min_le t (min b x)) (min_le_right b x)
    · exact ih (min b y) x h

theorem foldl_min_mem_or {β : Type} [LinearOrder β] (l : List β) (b : β) :
    l.foldl min b ∈ l ∨ l.foldl min b = b := by
  induction l generalizing b with
  | nil => exact Or.inr rfl
  | cons y t ih =>
    rcases ih (min b y) with h | h
    · exact Or.inl (List.mem_cons_of_mem y h)
    · rcases min_choice b y with hb | hy
      · exact Or.inr (by rw [List.foldl_cons, h, hb])
      · exact Or.inl (by rw [List.foldl_cons, h, hy]; exact List.mem_cons_self y t)

theorem firstMaxBy_eq_find? {α β : Type} [LinearOrder β] (v : α → β) (a : α) (l : List α) :
    firstMaxBy v (a :: l) =
      (a :: l).find? (fun x => decide (v x = (l.map v).foldl max (v a))) := by
  induction l generalizing a with
  | nil =>
    simp [firstMaxBy, List.find?]
  | cons b t ih =>
    have hstep : firstMaxBy v (a :: b :: t) = firstMaxBy v ((if v a < v b then b else a) :: t) := by
      by_cases hab : v a < v b <;> simp [firstMaxBy, hab]
    have hmax : v (if v a < v b then b else a) = max (v a) (v b) := by
      by_cases hab : v a < v b
      · simp [hab, max_eq_right (le_of_lt hab)]
      · simp [hab, max_eq_left (le_of_not_lt hab)]
    have hM : (List.map v (b :: t)).foldl max (v a) = (t.map v).foldl max (max (v a) (v b)) := by
      simp [List.foldl_cons]
    rw [hstep, ih, hM]
    by_cases hab : v a < v b
    · simp only [if_pos hab, max_eq_right (le_of_lt hab)]
      have hbM : v b ≤ (t.map v).foldl max (v b) := le_foldl_max (t.map v) (v b)
      have haM : ¬ (v a = (t.map v).foldl max (v b)) := by
        intro h
        exact absurd (lt_of_lt_of_le hab hbM) (by rw [← h]; exact lt_irrefl (v a))
      symm
      rw [List.find?_cons_of_neg _ (by simpa using haM)]
    · simp only [if_neg hab, max_eq_left (le_of_not_lt hab)]
      have hba : v b ≤ v a := le_of_not_lt hab
      by_cases hA : v a = (t.map v).foldl max (v a)
      · rw [List.find?_cons_of_pos _ (by simpa using hA),
          List.find?_cons_of_pos _ (by simpa using hA)]
      · have haM : v a < (t.map v).foldl max (v a) :=
          lt_of_le_of_ne (le_foldl_max (t.map v) (v a)) hA
        have hbMne : ¬ (v b = (t.map v).foldl max (v a)) := by
          intro h
          exact absurd (lt_of_le_of_lt hba haM) (by rw [← h]; exact lt_irrefl (v b))
        rw [List.find?_cons_of_neg _ (by simpa using hA),
          List.find?_cons_of_neg _ (by simpa using hA),
          List.find?_cons_of_neg _ (by simpa using hbMne)]

theorem firstMinBy_eq_find? {α β : Type} [LinearOrder β] (v : α → β) (a : α) (l : List α) :
    firstMinBy v (a :: l) =
      (a :: l).find? (fun x => decide (v x = (l.map v).foldl min (v a))) := by
  induction l generalizing a with
  | nil =>
    simp [firstMinBy, List.find?]
  | cons b t ih =>
    have hstep : firstMinBy v (a :: b :: t) = firstMinBy v ((if v b < v a then b else a) :: t) := by
      by_cases hab : v b < v a <;> simp [firstMinBy, hab]
    have hmin : v (if v b < v a then b else a) = min (v a) (v b) := by
      by_cases hab : v b < v a
      · simp [hab, min_eq_right (le_of_lt hab)]
      · simp [hab, min_eq_left (le_of_not_lt hab)]
    have hM : (List.map v (b :: t)).foldl min (v a) = (t.map v).foldl min (min (v a) (v b)) := by
      simp [List.foldl_cons]
    rw [hstep, ih, hM]
    by_cases hab : v b < v a
    · simp only [if_pos hab, min_eq_right (le_of_lt hab)]
      have hbM : (t.map v).foldl min (v b) ≤ v b := foldl_min_le (t.map v) (v b)
      have haM : ¬ (v a = (t.map v).foldl min (v b)) := by
        intro h
        exact absurd (lt_of_le_of_lt hbM hab) (by rw [← h]; exact lt_irrefl (v a))
      symm
      rw [List.find?_cons_of_neg _ (by simpa using haM)]
    · simp only [if_neg hab, min_eq_left (le_of_not_lt hab)]
      have hba : v a ≤ v b := le_of_not_lt hab
      by_cases hA : v a = (t.map v).foldl min (v a)
      · rw [List.find?_cons_of_pos _ (by simpa using hA),
          List.find?_cons_of_pos _ (by simpa using hA)]
      · have haM : (t.map v).foldl min (v a) < v a :=
          lt_of_le_of_ne (foldl_min_le (t.map v) (v a)) (fun h => hA h.symm)
        have hbMne : ¬ (v b = (t.map v).foldl min (v a)) := by
          intro h
          exact absurd (lt_of_lt_of_le haM hba) (by rw [h]; exact lt_irrefl _)
        rw [List.find?_cons_of_neg _ (by simpa using hA),
          List.find?_cons_of_neg _ (by simpa using hA),
          List.find?_cons_of_neg _ (by simpa using hbMne)]

/-! ### Helper lemmas about `counter` -/

theorem lookupS_counterAdd (acc : List (String × Nat)) (k k' : String) :
    lookupS k' (counterAdd acc k) =
      if k' = k then some ((lookupS k' acc).getD 0 + 1) else lookupS k' acc := by
  induction acc with
  | nil =>
    by_cases h : k' = k
    · subst h; simp [counterAdd, lookupS]
    · have h2 : ¬ (k = k') := fun hh => h hh.symm
      simp [counterAdd, lookupS, h, h2]
  | cons p rest ih =>
    obtain ⟨k₀, n₀⟩ := p
    by_cases hk : k₀ = k
    · subst hk
      by_cases h : k' = k₀
      · subst h; simp [counterAdd, lookupS]
      · have h2 : ¬ (k₀ = k') := fun hh => h hh.symm
        simp [counterAdd, lookupS, h, h2]
    · by_cases h : k₀ = k'
      · subst h
        simp [counterAdd, hk, lookupS]
      · simp [counterAdd, hk, lookupS, h, ih]

theorem lookupS_foldl_counterAdd (l : List String) (acc : List (String × Nat)) (k : String) :
    lookupS k (l.foldl counterAdd acc) =
      if k ∈ l then some ((lookupS k acc).getD 0 + l.count k) else lookupS k acc := by
  induction l generalizing acc with
  | nil => simp
  | cons a t ih =>
    rw [List.foldl_cons, ih (counterAdd acc a)]
    by_cases hmem : k ∈ t
    · simp only [if_pos hmem, if_pos (List.mem_cons_of_mem a hmem)]
      rw [lookupS_counterAdd]
      by_cases hka : k = a
      · subst hka
        simp [List.count_cons, Nat.add_assoc, Nat.add_comm 1]
      · have hne : ¬ ((a == k) = true) := by
          simp [beq_iff_eq]; exact fun hh => hka hh.symm
        simp [hka, List.count_cons, hne]
    · simp only [if_neg hmem]
      rw [lookupS_counterAdd]
      by_cases hka : k = a
      · subst hka
        have hc : t.count k = 0 := List.count_eq_zero.mpr hmem
        simp [List.mem_cons, List.count_cons, hc]
      · have hnm : ¬ (k ∈ a :: t) := by
          simp [List.mem_cons, hka, hmem]
        simp [hka, hnm]

theorem lookupS_counter (l : List String) (k : String) :
    lookupS k (counter l) = if k ∈ l then some (l.count k) else Option.none := by
  have h := lookupS_foldl_counterAdd l [] k
  simpa [counter, lookupS] using h

theorem counterAdd_keys (acc : List (String × Nat)) (k : String) :
    (counterAdd acc k).map Prod.fst =
      if k ∈ acc.map Prod.fst then acc.map Prod.fst else acc.map Prod.fst ++ [k] := by
  induction acc with
  | nil => simp [counterAdd]
  | cons p rest ih =>
    obtain ⟨k₀, n₀⟩ := p
    by_cases hk : k₀ = k
    · subst hk; simp [counterAdd]
    · have hne : ¬ (k = k₀) := fun hh => hk hh.symm
      by_cases hmem : k ∈ rest.map Prod.fst
      · simp [counterAdd, hk, ih, hne, hmem]
      · simp [counterAdd, hk, ih, hne, hmem]

theorem mem_of_lookupS_eq_some {c : List (String × Nat)} {k : String} {n : Nat}
    (h : lookupS k c = some n) : (k, n) ∈ c := by
  induction c with
  | nil => simp [lookupS] at h
  | cons p rest ih =>
    obtain ⟨k₀, n₀⟩ := p
    by_cases hk : k₀ = k
    · subst hk
      simp [lookupS] at h
      subst h
      exact List.mem_cons_self _ _
    · simp [lookupS, hk] at h
      exact List.mem_cons_of_mem _ (ih h)

theorem nodup_concat_of_not_mem {l : List String} {a : String}
    (h : l.Nodup) (ha : a ∉ l) : (l ++ [a]).Nodup := by
  induction l with
  | nil => simp
  | cons x t ih =>
    rw [List.nodup_cons] at h
    have hat : a ∉ t := fun hm => ha (List.mem_cons_of_mem x hm)
    have hxa : x ≠ a := fun hh => ha (by rw [hh]; exact List.mem_cons_self a t)
    rw [List.cons_append, List.nodup_cons]
    refine ⟨?_, ih h.2 hat⟩
    intro hx
    rcases List.mem_append.mp hx with hx | hx
    · exact h.1 hx
    · simp at hx; exact hxa hx

theorem counter_keys_nodup (l : List String) : ((counter l).map Prod.fst).Nodup := by
  have main : ∀ (l : List String) (acc : List (String × Nat)),
      (acc.map Prod.fst).Nodup → ((l.foldl counterAdd acc).map Prod.fst).Nodup := by
    intro l
    induction l with
    | nil => intro acc h; simpa using h
    | cons a t ih =>
      intro acc h
      rw [List.foldl_cons]
      apply ih
      rw [counterAdd_keys]
      by_cases hmem : a ∈ acc.map Prod.fst
      · simpa [hmem] using h
      · rw [if_neg hmem]
        exact nodup_concat_of_not_mem h hmem
  simpa using main l [] (by simp)

theorem lookupS_of_mem_nodup {c : List (String × Nat)} {k : String} {n : Nat}
    (hnd : (c.map Prod.fst).Nodup) (h : (k, n) ∈ c) : lookupS k c = some n := by
  induction c with
  | nil => cases h
  | cons p rest ih =>
    obtain ⟨k₀, n₀⟩ := p
    rw [List.map_cons, List.nodup_cons] at hnd
    rcases List.mem_cons.mp h with heq | hmem
    · rw [Prod.mk.injEq] at heq
      obtain ⟨h1, h2⟩ := heq
      subst h1; subst h2
      simp [lookupS]
    · have hk : ¬ (k₀ = k) := by
        intro hh
        subst hh
        exact hnd.1 (List.mem_map.mpr ⟨(k₀, n), hmem, rfl⟩)
      simp only [lookupS, if_neg hk]
      exact ih hnd.2 hmem

theorem counter_mem_count {l : List String} {p : String × Nat}
    (h : p ∈ counter l) : p.1 ∈ l ∧ p.2 = l.count p.1 := by
  obtain ⟨k, n⟩ := p
  have hl : lookupS k (counter l) = some n :=
    lookupS_of_mem_nodup (counter_keys_nodup l) h
  rw [lookupS_counter] at hl
  by_cases hmem : k ∈ l
  · rw [if_pos hmem] at hl
    simp at hl
    exact ⟨hmem, hl.symm⟩
  · rw [if_neg hmem] at hl
    cases hl

theorem count_mem_counter {l : List String} {k : String} (h : k ∈ l) :
    (k, l.count k) ∈ counter l :=
  mem_of_lookupS_eq_some (by rw [lookupS_counter, if_pos h])

/-! ### Transfer lemmas between `find?` on a counter and on its key list -/

theorem find?_pair_map_fst (P : String → Bool) (c : List (String × Nat)) :
    ((c.find? (fun p => P p.1)).map Prod.fst) = (c.map Prod.fst).find? P := by
  induction c with
  | nil => simp
  | cons p rest ih =>
    by_cases h : P p.1
    · rw [List.find?_cons_of_pos _ (by simpa using h), List.map_cons,
        List.find?_cons_of_pos _ h]
      simp
    · rw [List.find?_cons_of_neg _ (by simpa using h), List.map_cons,
        List.find?_cons_of_neg _ h, ih]

theorem find?_congr_mem {α : Type} {P Q : α → Bool} :
    ∀ {l : List α}, (∀ x ∈ l, P x = Q x) → l.find? P = l.find? Q
  | [], _ => rfl
  | a :: l, h => by
    have ha : P a = Q a := h a (List.mem_cons_self a l)
    by_cases hp : P a
    · rw [List.find?_cons_of_pos _ hp, List.find?_cons_of_pos _ (by rw [← ha]; exact hp)]
    · rw [List.find?_cons_of_neg _ hp,
        List.find?_cons_of_neg _ (by rw [← ha]; exact hp),
        find?_congr_mem (fun x hx => h x (List.mem_cons_of_mem a hx))]

theorem find?_foldl_counterAdd_fst (P : String → Bool) (l : List String) :
    ∀ acc : List (String × Nat),
      (((l.foldl counterAdd acc).find? (fun p => P p.1)).map Prod.fst) =
        (acc.map Prod.fst ++ l).find? P := by
  induction l with
  | nil =>
    intro acc
    rw [List.foldl_nil, List.append_nil]
    exact find?_pair_map_fst P acc
  | cons a t ih =>
    intro acc
    rw [List.foldl_cons, ih (counterAdd acc a)]
    rw [counterAdd_keys]
    by_cases hmem : a ∈ acc.map Prod.fst
    · rw [if_pos hmem]
      rw [List.find?_append, List.find?_append]
      cases hk : (acc.map Prod.fst).find? P with
      | some x => simp [Option.or]
      | none =>
        have hPa : ¬ (P a = true) := (List.find?_eq_none.mp hk) a hmem
        simp only [Option.none_or]
        rw [List.find?_cons_of_neg _ hPa]
    · rw [if_neg hmem, List.append_assoc, List.singleton_append]

theorem counter_find?_fst (P : String → Bool) (l : List String) :
    (((counter l).find? (fun p => P p.1)).map Prod.fst) = l.find? P := by
  have h := find?_foldl_counterAdd_fst P l []
  simpa [counter] using h

/-! ### Helper lemmas about durations, sums and counts -/

theorem durList_length {jobs : List Job} {ds : List ℚ}
    (h : durList jobs = Except.ok ds) : ds.length = jobs.length := by
  induction jobs generalizing ds with
  | nil => simp [durList] at h; subst h; rfl
  | cons j rest ih =>
    simp only [durList] at h
    cases hj : getDurCoerced j with
    | error e => rw [hj] at h; cases h
    | ok d =>
      rw [hj] at h
      cases hr : durList rest with
      | error e => rw [hr] at h; cases h
      | ok ds' =>
        rw [hr] at h
        cases h
        simp [ih hr]

theorem durList_ok_of_parse {jobs : List Job}
    (h : ∀ j ∈ jobs, durParseOk j = true) : ∃ ds, durList jobs = Except.ok ds := by
  induction jobs with
  | nil => exact ⟨[], rfl⟩
  | cons j rest ih =>
    obtain ⟨ds, hds⟩ := ih (fun x hx => h x (List.mem_cons_of_mem j hx))
    have hj : durParseOk j = true := h j (List.mem_cons_self j rest)
    have hok : ∃ d, getDurCoerced j = Except.ok d := by
      unfold durParseOk at hj
      unfold getDurCoerced
      cases hd : j.duration with
      | none => exact ⟨0, rfl⟩
      | num q => exact ⟨q, rfl⟩
      | str s =>
        rw [hd] at hj
        by_cases hs : s = ""
        · exact ⟨0, by simp [hs]⟩
        · have : (pyParseFloat s).isSome := by
            have hsb : ¬ ((s == "") = true) := by simpa [beq_iff_eq] using hs
            simpa [hsb] using hj
          obtain ⟨q, hq⟩ := Option.isSome_iff_exists.mp this
          exact ⟨q, by simp [hs, hq]⟩
    obtain ⟨d, hd⟩ := hok
    exact ⟨d :: ds, by simp [durList, hd, hds]⟩

theorem sumQ_eq_sum (l : List ℚ) : sumQ l = l.sum := by
  have aux : ∀ (l : List ℚ) (a : ℚ), l.foldl (fun x y => x + y) a = a + l.sum := by
    intro l
    induction l with
    | nil => intro a; simp
    | cons b t ih =>
      intro a
      rw [List.foldl_cons, ih (a + b), List.sum_cons]
      ring
  rw [sumQ, aux l 0, zero_add]

theorem count_map_eq_filter_length (f : Job → String) (k : String) (jobs : List Job) :
    (jobs.map f).count k = (jobs.filter (fun j => decide (f j = k))).length := by
  induction jobs with
  | nil => rfl
  | cons j rest ih =>
    rw [List.map_cons, List.count_cons, List.filter_cons, ih]
    by_cases h : f j = k
    · simp [h]
    · have hb : ¬ ((f j == k) = true) := by simpa [beq_iff_eq] using h
      simp [h, hb]

theorem filter_map_length {α β : Type} (f : α → β) (p : β → Bool) (l : List α) :
    ((l.map f).filter p).length = (l.filter (fun x => p (f x))).length := by
  induction l with
  | nil => rfl
  | cons a t ih =>
    rw [List.map_cons, List.filter_cons, List.filter_cons]
    by_cases h : p (f a)
    · simp [h, ih]
    · simp [h, ih]

/-! ### Helper lemmas for the `duration_minutes` independence claim -/

theorem getDurCoerced_setDurMin (v : DurVal) (j : Job) :
    getDurCoerced (setDurMin v j) = getDurCoerced j := rfl

theorem durList_map_setDurMin (v : DurVal) (jobs : List Job) :
    durList (jobs.map (setDurMin v)) = durList jobs := by
  induction jobs with
  | nil => rfl
  | cons j rest ih =>
    simp only [List.map_cons, durList, getDurCoerced_setDurMin, ih]

theorem foldl_firstwins_map {α γ β : Type} [LinearOrder β] (v : α → β) (g : γ → α)
    (t : List γ) : ∀ a : γ,
    t.foldl (fun best y => if v best < v (g y) then g y else best) (g a) =
      g (t.foldl (fun best y => if v (g best) < v (g y) then y else best) a) := by
  induction t with
  | nil => intro a; rfl
  | cons y t ih =>
    intro a
    rw [List.foldl_cons, List.foldl_cons]
    by_cases h : v (g a) < v (g y)
    · rw [if_pos h, if_pos h, ih y]
    · rw [if_neg h, if_neg h, ih a]

theorem firstMaxBy_map {α γ β : Type} [LinearOrder β] (v : α → β) (g : γ → α)
    (l : List γ) :
    firstMaxBy v (l.map g) = (firstMaxBy (fun x => v (g x)) l).map g := by
  cases l with
  | nil => rfl
  | cons a t =>
    simp only [List.map_cons, firstMaxBy, Option.map_some']
    rw [List.foldl_map]
    exact congrArg some (foldl_firstwins_map v g t a)

theorem foldl_firstwins_min_map {α γ β : Type} [LinearOrder β] (v : α → β) (g : γ → α)
    (t : List γ) : ∀ a : γ,
    t.foldl (fun best y => if v (g y) < v best then g y else best) (g a) =
      g (t.foldl (fun best y => if v (g y) < v (g best) then y else best) a) := by
  induction t with
  | nil => intro a; rfl
  | cons y t ih =>
    intro a
    rw [List.foldl_cons, List.foldl_cons]
    by_cases h : v (g y) < v (g a)
    · rw [if_pos h, if_pos h, ih y]
    · rw [if_neg h, if_neg h, ih a]

theorem firstMinBy_map {α γ β : Type} [LinearOrder β] (v : α → β) (g : γ → α)
    (l : List γ) :
    firstMinBy v (l.map g) = (firstMinBy (fun x => v (g x)) l).map g := by
  cases l with
  | nil => rfl
  | cons a t =>
    simp only [List.map_cons, firstMinBy, Option.map_some']
    rw [List.foldl_map]
    exact congrArg some (foldl_firstwins_min_map v g t a)

theorem fst_prodMap_id {γ : Type} (f : γ → γ) :
    (fun p : ℚ × γ => Prod.fst (Prod.map id f p)) = Prod.fst := by
  funext p
  cases p
  rfl

/-! ### Reading off the non-empty branch of `compute_stats` -/

theorem compute_stats_ok_nonempty {j : Job} {js : List Job} {r : StatsReport}
    (hr : compute_stats (j :: js) = Except.ok r) :
    ∃ ds, durList (j :: js) = Except.ok ds ∧ r = computeNonempty (j :: js) ds := by
  rw [show compute_stats (j :: js) =
      (match durList (j :: js) with
        | Except.error e => Except.error e
        | Except.ok ds => Except.ok (computeNonempty (j :: js) ds)) from rfl] at hr
  cases h : durList (j :: js) with
  | error e =>
    rw [h] at hr
    cases hr
  | ok ds =>
    rw [h] at hr
    injection hr with hh
    exact ⟨ds, rfl, hh.symm⟩

/-! ### Claim theorems -/

/-- C3: `compute_stats` applied to the empty list returns a report with
`total_jobs = 0`, `total_minutes = 0.0`, `avg_minutes = 0.0`,
`bad_signal_count = 0`, `bad_signal_percent = 0.0`, `longest_job` and
`shortest_job` absent, all three category mappings empty, and
`most_common_issue` left unset (no such key in the returned dict). -/
theorem C3_empty_report :
    ∃ r, compute_stats [] = Except.ok r ∧ r.total_jobs = 0 ∧ r.total_minutes = 0 ∧
      r.avg_minutes = 0 ∧ r.bad_signal_count = 0 ∧ r.bad_signal_percent = 0 ∧
      r.longest_job = Option.none ∧ r.shortest_job = Option.none ∧
      r.jobs_per_tech = [] ∧ r.jobs_per_address = [] ∧ r.jobs_per_day = [] ∧
      r.most_common_issue = Option.none :=
  ⟨emptyReport, rfl, rfl, rfl, rfl, rfl, rfl, rfl, rfl, rfl, rfl, rfl, rfl⟩

/-- C5: for all string inputs, `create_job` returns a record in which
`tech_name` equals `tech`, `duration_minutes` equals `duration`,
`start_time` equals `end_time`, `duration_minutes` is `0.0`, and every text
field equals the corresponding input with surrounding whitespace trimmed. -/
theorem C5_create_job_fields
    (job_id address issue resolution signal tech_name now : String) (j : Job)
    (hj : j = create_job job_id address issue resolution signal tech_name now) :
    j.tech_name = j.tech ∧ j.duration_minutes = j.duration ∧
      j.start_time = j.end_time ∧ j.duration_minutes = DurVal.num 0 ∧
      j.id = some (pyStrip job_id) ∧ j.address = some (pyStrip address) ∧
      j.issue = some (pyStrip issue) ∧ j.resolution = some (pyStrip resolution) ∧
      j.signal = some (pyStrip signal) ∧ j.tech_name = some (pyStrip tech_name) := by
  subst hj
  exact ⟨rfl, rfl, rfl, rfl, rfl, rfl, rfl, rfl, rfl, rfl⟩

/-- Concrete check of C5 on sample factory inputs with extra whitespace. -/
theorem C5_create_job_fields_witness :
    sampleJob = create_job " 7 " " 1 Main St " "Low Light" "Replaced bulb" "Good"
        " Jose " "2025-11-17 16:00" ∧
      (sampleJob.tech_name = sampleJob.tech ∧
        sampleJob.duration_minutes = sampleJob.duration ∧
        sampleJob.start_time = sampleJob.end_time ∧
        sampleJob.duration_minutes = DurVal.num 0 ∧
        sampleJob.id = some (pyStrip " 7 ") ∧
        sampleJob.address = some (pyStrip " 1 Main St ") ∧
        sampleJob.issue = some (pyStrip "Low Light") ∧
        sampleJob.resolution = some (pyStrip "Replaced bulb") ∧
        sampleJob.signal = some (pyStrip "Good") ∧
        sampleJob.tech_name = some (pyStrip " Jose ")) :=
  ⟨rfl, C5_create_job_fields " 7 " " 1 Main St " "Low Light" "Replaced bulb" "Good"
    " Jose " "2025-11-17 16:00" sampleJob rfl⟩

/-- C1 counterexample: `compute_stats` on a record whose `duration` is the
non-numeric string "abc" raises `ValueError` instead of treating the value
as `0.0` and returning a report, contrary to the claim. -/
theorem C1_unparseable_duration_raises :
    compute_stats [jobD (DurVal.str "abc")] = Except.error "ValueError" := rfl

/-- C1 (amended): when every record's `duration` is missing, `None`, a
number, the empty string, or a float-parseable string, `compute_stats`
returns a well-formed report without raising, and a record with missing
duration contributes `0.0`; a non-empty non-numeric duration string instead
raises `ValueError` (see the counterexample). -/
theorem C1_missing_duration_safe (jobs : List Job)
    (h : ∀ j ∈ jobs, durParseOk j = true) :
    (∃ r, compute_stats jobs = Except.ok r) ∧
      ∀ j, j.duration = DurVal.none → getDurCoerced j = Except.ok 0 := by
  constructor
  · cases jobs with
    | nil => exact ⟨emptyReport, rfl⟩
    | cons j js =>
      obtain ⟨ds, hds⟩ := durList_ok_of_parse h
      refine ⟨computeNonempty (j :: js) ds, ?_⟩
      rw [show compute_stats (j :: js) =
          (match durList (j :: js) with
            | Except.error e => Except.error e
            | Except.ok ds => Except.ok (computeNonempty (j :: js) ds)) from rfl, hds]
  · intro j hj
    simp [getDurCoerced, hj]

/-- Concrete check of C1 (amended) on records with missing, numeric and
parseable-string durations. -/
theorem C1_missing_duration_safe_witness :
    (∀ j ∈ [jobD DurVal.none, jobD (DurVal.num 7), jobD (DurVal.str "12.5")],
        durParseOk j = true) ∧
      ((∃ r, compute_stats [jobD DurVal.none, jobD (DurVal.num 7),
          jobD (DurVal.str "12.5")] = Except.ok r) ∧
        ∀ j, j.duration = DurVal.none → getDurCoerced j = Except.ok 0) :=
  ⟨by decide, C1_missing_duration_safe _ (by decide)⟩

/-- C9: a record with missing or empty `issue` is tallied under the label
"Unknown", and on a concrete non-empty input where such records form the
largest group, `most_common_issue` is the literal string "Unknown". -/
theorem C9_unknown_issue_label :
    (∀ j, (j.issue = Option.none ∨ j.issue = some "") → issueLabel j = "Unknown") ∧
      compute_stats unknownIssueJobs = Except.ok unknownIssueReport ∧
      unknownIssueReport.most_common_issue = some "Unknown" := by
  refine ⟨?_, rfl, rfl⟩
  intro j hj
  rcases hj with h | h <;> simp [issueLabel, orUnknown, h]

/-- Concrete check of C9 on a record with a missing `issue` key. -/
theorem C9_unknown_issue_label_witness :
    ((jobD DurVal.none).issue = Option.none ∨ (jobD DurVal.none).issue = some "") ∧
      issueLabel (jobD DurVal.none) = "Unknown" :=
  ⟨Or.inl rfl, C9_unknown_issue_label.1 (jobD DurVal.none) (Or.inl rfl)⟩

@[simp] theorem techLabel_setDurMin (v : DurVal) (j : Job) :
    techLabel (setDurMin v j) = techLabel j := rfl

@[simp] theorem addressLabel_setDurMin (v : DurVal) (j : Job) :
    addressLabel (setDurMin v j) = addressLabel j := rfl

@[simp] theorem issueLabel_setDurMin (v : DurVal) (j : Job) :
    issueLabel (setDurMin v j) = issueLabel j := rfl

@[simp] theorem sigLower_setDurMin (v : DurVal) (j : Job) :
    sigLower (setDurMin v j) = sigLower j := rfl

@[simp] theorem dateKey_setDurMin (v : DurVal) (j : Job) :
    dateKey (setDurMin v j) = dateKey j := rfl

theorem eta_fst_qjob : (fun p : ℚ × Job => p.1) = (Prod.fst : ℚ × Job → ℚ) := rfl

theorem fst_comp_prodMap (v : DurVal) :
    (Prod.fst ∘ Prod.map id (setDurMin v) : ℚ × Job → ℚ) = Prod.fst := by
  funext p; cases p; rfl

theorem snd_comp_prodMap (v : DurVal) :
    (Prod.snd ∘ Prod.map id (setDurMin v) : ℚ × Job → Job) = setDurMin v ∘ Prod.snd := by
  funext p; cases p; rfl

theorem techLabel_comp_setDurMin (v : DurVal) : techLabel ∘ setDurMin v = techLabel := rfl

theorem addressLabel_comp_setDurMin (v : DurVal) :
    addressLabel ∘ setDurMin v = addressLabel := rfl

theorem issueLabel_comp_setDurMin (v : DurVal) : issueLabel ∘ setDurMin v = issueLabel := rfl

theorem sigLower_comp_setDurMin (v : DurVal) : sigLower ∘ setDurMin v = sigLower := rfl

theorem dateKey_comp_setDurMin (v : DurVal) : dateKey ∘ setDurMin v = dateKey := rfl

theorem computeNonempty_map_setDurMin (v : DurVal) (jobs : List Job) (ds : List ℚ) :
    computeNonempty (jobs.map (setDurMin v)) ds =
      mapReportJobs (setDurMin v) (computeNonempty jobs ds) := by
  simp only [computeNonempty, mapReportJobs, List.zip_map_right, List.map_map,
    firstMaxBy_map, firstMinBy_map, Option.map_map, List.length_map,
    Function.comp, Prod.map_fst, Prod.map_snd, id_eq, eta_fst_qjob,
    fst_comp_prodMap, snd_comp_prodMap,
    techLabel_comp_setDurMin, addressLabel_comp_setDurMin, issueLabel_comp_setDurMin,
    sigLower_comp_setDurMin, dateKey_comp_setDurMin,
    techLabel_setDurMin, addressLabel_setDurMin, issueLabel_setDurMin,
    sigLower_setDurMin, dateKey_setDurMin]

/-- C10: `compute_stats` reads durations only from the `duration` key:
coercion ignores `duration_minutes`, a record with no `duration` key is
coerced to `0.0`, and rewriting every record's `duration_minutes` changes
nothing in the report except that the two embedded records carry the
rewritten value. -/
theorem C10_duration_key_only :
    (∀ (v : DurVal) (j : Job), getDurCoerced (setDurMin v j) = getDurCoerced j) ∧
      (∀ j : Job, j.duration = DurVal.none → getDurCoerced j = Except.ok 0) ∧
      ∀ (v : DurVal) (jobs : List Job),
        compute_stats (jobs.map (setDurMin v)) =
          Except.map (mapReportJobs (setDurMin v)) (compute_stats jobs) := by
  refine ⟨fun v j => rfl, fun j hj => by simp [getDurCoerced, hj], fun v jobs => ?_⟩
  cases jobs with
  | nil => rfl
  | cons j js =>
    rw [show compute_stats ((j :: js).map (setDurMin v)) =
        (match durList ((j :: js).map (setDurMin v)) with
          | Except.error e => Except.error e
          | Except.ok ds => Except.ok (computeNonempty ((j :: js).map (setDurMin v)) ds))
        from rfl]
    rw [show compute_stats (j :: js) =
        (match durList (j :: js) with
          | Except.error e => Except.error e
          | Except.ok ds => Except.ok (computeNonempty (j :: js) ds)) from rfl]
    rw [durList_map_setDurMin]
    cases h : durList (j :: js) with
    | error e => rfl
    | ok ds =>
      simp only [Except.map]
      exact congrArg Except.ok (computeNonempty_map_setDurMin v (j :: js) ds)

/-- Concrete check of C10 on a record with a missing `duration` key. -/
theorem C10_duration_key_only_witness :
    getDurCoerced (jobD DurVal.none) = Except.ok 0 :=
  C10_duration_key_only.2.1 (jobD DurVal.none) rfl

/-- C2: on non-empty input, `longest_job` is the first record in input
order whose coerced duration equals the maximum duration over the list and
`shortest_job` the first whose duration equals the minimum (stable
argmax/argmin under ties); `qmax ds` / `qmin ds` are indeed the maximum and
minimum of the duration list. -/
theorem C2_longest_shortest_first (jobs : List Job) (ds : List ℚ) (r : StatsReport)
    (hne : jobs ≠ []) (hds : durList jobs = Except.ok ds)
    (hr : compute_stats jobs = Except.ok r) :
    r.longest_job = ((ds.zip jobs).find? (fun p => decide (p.1 = qmax ds))).map Prod.snd ∧
      r.shortest_job = ((ds.zip jobs).find? (fun p => decide (p.1 = qmin ds))).map Prod.snd ∧
      (∀ d ∈ ds, d ≤ qmax ds ∧ qmin ds ≤ d) ∧ qmax ds ∈ ds ∧ qmin ds ∈ ds := by
  obtain ⟨j, js, rfl⟩ := List.exists_cons_of_ne_nil hne
  obtain ⟨ds', hds', hr'⟩ := compute_stats_ok_nonempty hr
  rw [hds] at hds'
  injection hds' with hdseq
  subst hdseq
  subst hr'
  have hlen : ds.length = js.length + 1 := by
    simpa using durList_length hds
  cases ds with
  | nil => simp at hlen
  | cons d dt =>
    have hlen' : dt.length = js.length := by simpa using hlen
    have hmap : (dt.zip js).map Prod.fst = dt :=
      List.map_fst_zip dt js (le_of_eq hlen')
    have hzip : (d :: dt).zip (j :: js) = (d, j) :: dt.zip js := rfl
    have hqmax : qmax (d :: dt) = ((dt.zip js).map Prod.fst).foldl max d := by
      rw [hmap]; rfl
    have hqmin : qmin (d :: dt) = ((dt.zip js).map Prod.fst).foldl min d := by
      rw [hmap]; rfl
    refine ⟨?_, ?_, ?_, ?_, ?_⟩
    · show (firstMaxBy Prod.fst ((d :: dt).zip (j :: js))).map Prod.snd = _
      rw [hzip, firstMaxBy_eq_find? Prod.fst (d, j) (dt.zip js)]
      simp only [hqmax]
    · show (firstMinBy Prod.fst ((d :: dt).zip (j :: js))).map Prod.snd = _
      rw [hzip, firstMinBy_eq_find? Prod.fst (d, j) (dt.zip js)]
      simp only [hqmin]
    · intro x hx
      rcases List.mem_cons.mp hx with h | h
      · subst h
        exact ⟨le_foldl_max dt x, foldl_min_le dt x⟩
      · exact ⟨mem_le_foldl_max dt d x h, foldl_min_le_mem dt d x h⟩
    · rcases foldl_max_mem_or dt d with h | h
      · exact List.mem_cons_of_mem d h
      · rw [show qmax (d :: dt) = dt.foldl max d from rfl, h]
        exact List.mem_cons_self d dt
    · rcases foldl_min_mem_or dt d with h | h
      · exact List.mem_cons_of_mem d h
      · rw [show qmin (d :: dt) = dt.foldl min d from rfl, h]
        exact List.mem_cons_self d dt

/-- Concrete check of C2 on a collection whose first two records tie for
the maximum duration. -/
theorem C2_longest_shortest_first_witness :
    witnessJobs ≠ [] ∧ durList witnessJobs = Except.ok witnessDurs ∧
      compute_stats witnessJobs = Except.ok witnessReport ∧
      (witnessReport.longest_job =
          ((witnessDurs.zip witnessJobs).find?
            (fun p => decide (p.1 = qmax witnessDurs))).map Prod.snd ∧
        witnessReport.shortest_job =
          ((witnessDurs.zip witnessJobs).find?
            (fun p => decide (p.1 = qmin witnessDurs))).map Prod.snd ∧
        (∀ d ∈ witnessDurs, d ≤ qmax witnessDurs ∧ qmin witnessDurs ≤ d) ∧
        qmax witnessDurs ∈ witnessDurs ∧ qmin witnessDurs ∈ witnessDurs) :=
  ⟨by decide, rfl, rfl,
    C2_longest_shortest_first witnessJobs witnessDurs witnessReport (by decide) rfl rfl⟩

/-- `Counter(...).most_common(1)[0][0]` over a non-empty list of labels is a
label of maximal occurrence count, and it is the first element in list
order among those attaining that count. -/
theorem stable_mode_spec (L : List String) (hL : L ≠ []) :
    ∃ m, (match firstMaxBy Prod.snd (counter L) with
          | some p => p.1
          | Option.none => "N/A") = m ∧ m ∈ L ∧
      (∀ x ∈ L, L.count x ≤ L.count m) ∧
      L.find? (fun x => decide (L.count x = L.count m)) = some m := by
  have hhead : ∃ a, a ∈ L := by
    obtain ⟨a, t, rfl⟩ := List.exists_cons_of_ne_nil hL
    exact ⟨a, List.mem_cons_self a t⟩
  obtain ⟨a, ha⟩ := hhead
  have hcne : counter L ≠ [] := by
    intro hc
    have hlk := lookupS_counter L a
    rw [hc, if_pos ha] at hlk
    cases hlk
  obtain ⟨p₀, ct, hc⟩ := List.exists_cons_of_ne_nil hcne
  obtain ⟨M, hM⟩ : ∃ M, (ct.map Prod.snd).foldl max p₀.2 = M := ⟨_, rfl⟩
  have he : firstMaxBy Prod.snd (counter L) =
      (counter L).find? (fun p => decide (p.2 = M)) := by
    rw [hc, firstMaxBy_eq_find? Prod.snd p₀ ct, hM]
  have hentry : ∃ entry, (counter L).find? (fun p => decide (p.2 = M)) = some entry := by
    rw [← he, hc]
    exact ⟨_, rfl⟩
  obtain ⟨entry, hentry⟩ := hentry
  have hmem : entry ∈ counter L := List.mem_of_find?_eq_some hentry
  have hpred : entry.2 = M := by
    have h := List.find?_some hentry
    simpa using h
  have hkey := counter_mem_count hmem
  have hcount : L.count entry.1 = M := by rw [← hkey.2, hpred]
  have hub : ∀ p ∈ counter L, p.2 ≤ M := by
    intro p hp
    rw [hc] at hp
    rcases List.mem_cons.mp hp with h | h
    · rw [h, ← hM]
      exact le_foldl_max (ct.map Prod.snd) p₀.2
    · rw [← hM]
      exact mem_le_foldl_max (ct.map Prod.snd) p₀.2 p.2 (List.mem_map.mpr ⟨p, h, rfl⟩)
  have hmax : ∀ x ∈ L, L.count x ≤ L.count entry.1 := by
    intro x hx
    rw [hcount]
    exact hub (x, L.count x) (count_mem_counter hx)
  have hcongr : (counter L).find? (fun p => decide (p.2 = M)) =
      (counter L).find? (fun p => decide (L.count p.1 = M)) := by
    apply find?_congr_mem
    intro p hp
    show decide (p.2 = M) = decide (L.count p.1 = M)
    rw [(counter_mem_count hp).2]
  have htrans := counter_find?_fst (fun k => decide (L.count k = M)) L
  have hfind : L.find? (fun k => decide (L.count k = M)) = some entry.1 := by
    rw [← htrans, ← hcongr, hentry, Option.map_some']
  refine ⟨entry.1, ?_, hkey.1, hmax, ?_⟩
  · rw [he, hentry]
  · simp only [hcount]
    exact hfind

/-- C4: on non-empty input, `most_common_issue` is an issue label with the
highest occurrence count, and it is the first label in input order among
those attaining that count (stable tie-break); the value always comes from
the frequency count, never from the defensive "N/A" fallback branch. -/
theorem C4_most_common_issue_stable (jobs : List Job) (r : StatsReport)
    (hne : jobs ≠ []) (hr : compute_stats jobs = Except.ok r) :
    ∃ m, r.most_common_issue = some m ∧ m ∈ jobs.map issueLabel ∧
      (∀ x ∈ jobs.map issueLabel,
        (jobs.map issueLabel).count x ≤ (jobs.map issueLabel).count m) ∧
      (jobs.map issueLabel).find?
          (fun x => decide ((jobs.map issueLabel).count x =
            (jobs.map issueLabel).count m)) = some m := by
  obtain ⟨j, js, rfl⟩ := List.exists_cons_of_ne_nil hne
  obtain ⟨ds, hds, hr'⟩ := compute_stats_ok_nonempty hr
  subst hr'
  have hLne : (j :: js).map issueLabel ≠ [] := by simp
  obtain ⟨m, hm1, hm2, hm3, hm4⟩ := stable_mode_spec ((j :: js).map issueLabel) hLne
  refine ⟨m, ?_, hm2, hm3, hm4⟩
  have hfield : (computeNonempty (j :: js) ds).most_common_issue =
      some (match firstMaxBy Prod.snd (counter ((j :: js).map issueLabel)) with
        | some p => p.1
        | Option.none => "N/A") := rfl
  rw [hfield, hm1]

/-- Concrete check of C4 on a collection whose issue "Slow" occurs twice. -/
theorem C4_most_common_issue_stable_witness :
    witnessJobs ≠ [] ∧ compute_stats witnessJobs = Except.ok witnessReport ∧
      (∃ m, witnessReport.most_common_issue = some m ∧
        m ∈ witnessJobs.map issueLabel ∧
        (∀ x ∈ witnessJobs.map issueLabel,
          (witnessJobs.map issueLabel).count x ≤ (witnessJobs.map issueLabel).count m) ∧
        (witnessJobs.map issueLabel).find?
            (fun x => decide ((witnessJobs.map issueLabel).count x =
              (witnessJobs.map issueLabel).count m)) = some m) :=
  ⟨by decide, rfl,
    C4_most_common_issue_stable witnessJobs witnessReport (by decide) rfl⟩

/-- The word test `any(word in s for word in bad_signal_words)` spelt out
as the four-way disjunction of substring tests. -/
theorem isBadSignal_spelled (s : String) :
    isBadSignal s =
      (pyIn "bad" s || pyIn "poor" s || pyIn "weak" s || pyIn "low" s) := by
  simp [isBadSignal, badSignalWords, List.any, Bool.or_assoc]

/-- C6: a record is counted as bad-signal iff its lower-cased signal text
contains one of the substrings "bad", "poor", "weak", "low"; on non-empty
input, `bad_signal_percent` is `100 * bad_signal_count / total_jobs`
rounded to two decimals. -/
theorem C6_bad_signal (jobs : List Job) (r : StatsReport)
    (hr : compute_stats jobs = Except.ok r) :
    r.bad_signal_count =
      (jobs.filter (fun j => pyIn "bad" (sigLower j) || pyIn "poor" (sigLower j) ||
        pyIn "weak" (sigLower j) || pyIn "low" (sigLower j))).length ∧
      (jobs ≠ [] → r.bad_signal_percent =
        round2 (100 * (r.bad_signal_count : ℚ) / (jobs.length : ℚ))) := by
  cases jobs with
  | nil =>
    have hr' : Except.ok emptyReport = Except.ok r := hr
    injection hr' with hh
    subst hh
    exact ⟨rfl, fun hne => absurd rfl hne⟩
  | cons j js =>
    obtain ⟨ds, hds, hr'⟩ := compute_stats_ok_nonempty hr
    subst hr'
    have hcount : (computeNonempty (j :: js) ds).bad_signal_count =
        ((j :: js).filter (fun x => pyIn "bad" (sigLower x) || pyIn "poor" (sigLower x) ||
          pyIn "weak" (sigLower x) || pyIn "low" (sigLower x))).length := by
      show (((j :: js).map sigLower).filter isBadSignal).length = _
      rw [filter_map_length]
      rw [List.filter_congr (fun x _ => isBadSignal_spelled (sigLower x))]
    refine ⟨hcount, fun _ => ?_⟩
    have hlen0 : (ds.zip (j :: js)).length = (j :: js).length := by
      rw [List.length_zip, durList_length hds, min_self]
    have hfield : (computeNonempty (j :: js) ds).bad_signal_percent =
        round2 (if (ds.zip (j :: js)).length = 0 then 0
          else (((computeNonempty (j :: js) ds).bad_signal_count : ℚ) /
            ((ds.zip (j :: js)).length : ℚ)) * 100) := rfl
    rw [hfield, hlen0, if_neg (by simp)]
    exact congrArg round2 (by ring)

/-- Concrete check of C6 on signals "Good", "Bad", "bad wifi". -/
theorem C6_bad_signal_witness :
    compute_stats witnessJobs = Except.ok witnessReport ∧
      witnessReport.bad_signal_count =
        (witnessJobs.filter (fun j => pyIn "bad" (sigLower j) || pyIn "poor" (sigLower j) ||
          pyIn "weak" (sigLower j) || pyIn "low" (sigLower j))).length ∧
      witnessReport.bad_signal_percent =
        round2 (100 * (witnessReport.bad_signal_count : ℚ) / (witnessJobs.length : ℚ)) :=
  ⟨rfl, (C6_bad_signal witnessJobs witnessReport rfl).1,
    (C6_bad_signal witnessJobs witnessReport rfl).2 (by decide)⟩

/-- C7: on non-empty input, `total_minutes` is the exact sum of the coerced
durations and `avg_minutes` is that exact sum divided by the number of
records, with rounding to two decimals applied only to the two final output
values. -/
theorem C7_totals (jobs : List Job) (ds : List ℚ) (r : StatsReport)
    (hne : jobs ≠ []) (hds : durList jobs = Except.ok ds)
    (hr : compute_stats jobs = Except.ok r) :
    r.total_minutes = round2 ds.sum ∧
      r.avg_minutes = round2 (ds.sum / (jobs.length : ℚ)) := by
  obtain ⟨j, js, rfl⟩ := List.exists_cons_of_ne_nil hne
  obtain ⟨ds', hds', hr'⟩ := compute_stats_ok_nonempty hr
  rw [hds] at hds'
  injection hds' with hdseq
  subst hdseq
  subst hr'
  have hmapfst : (ds.zip (j :: js)).map Prod.fst = ds :=
    List.map_fst_zip ds (j :: js) (le_of_eq (durList_length hds))
  have hlen0 : (ds.zip (j :: js)).length = (j :: js).length := by
    rw [List.length_zip, durList_length hds, min_self]
  constructor
  · show round2 (sumQ ((ds.zip (j :: js)).map Prod.fst)) = round2 ds.sum
    rw [hmapfst, sumQ_eq_sum]
  · show round2 (if (ds.zip (j :: js)).length = 0 then 0
        else sumQ ((ds.zip (j :: js)).map Prod.fst) / ((ds.zip (j :: js)).length : ℚ)) = _
    rw [hmapfst, sumQ_eq_sum, hlen0, if_neg (by simp)]

/-- Concrete check of C7 on durations 5, 5, 3. -/
theorem C7_totals_witness :
    witnessJobs ≠ [] ∧ durList witnessJobs = Except.ok witnessDurs ∧
      compute_stats witnessJobs = Except.ok witnessReport ∧
      (witnessReport.total_minutes = round2 witnessDurs.sum ∧
        witnessReport.avg_minutes = round2 (witnessDurs.sum / (witnessJobs.length : ℚ))) :=
  ⟨by decide, rfl, rfl,
    C7_totals witnessJobs witnessDurs witnessReport (by decide) rfl rfl⟩

/-- Grouping a label over the records: the counter built from the mapped
labels stores, for each label, exactly the number of records carrying it,
and stores nothing for labels with no record. -/
theorem lookupS_counter_label (f : Job → String) (jobs : List Job) (k : String) :
    lookupS k (counter (jobs.map f)) =
      (if (jobs.filter (fun j => decide (f j = k))).length = 0 then Option.none
        else some ((jobs.filter (fun j => decide (f j = k))).length)) := by
  rw [lookupS_counter]
  by_cases hmem : k ∈ jobs.map f
  · have hpos : (jobs.filter (fun j => decide (f j = k))).length ≠ 0 := by
      rw [← count_map_eq_filter_length]
      intro h0
      exact (List.count_eq_zero.mp h0) hmem
    rw [if_pos hmem, if_neg hpos, count_map_eq_filter_length]
  · have h0 : (jobs.filter (fun j => decide (f j = k))).length = 0 := by
      rw [← count_map_eq_filter_length]
      exact List.count_eq_zero.mpr hmem
    rw [if_neg hmem, if_pos h0]

/-- C8: `jobs_per_tech` and `jobs_per_address` group the records on the
tech / address label (with "Unknown" substituted for a missing or empty
value) and `jobs_per_day` on the first ten characters of `start_time`
("Unknown" when shorter); each stored count is the number of records in the
group, and absent labels are absent keys. -/
theorem C8_groupings (jobs : List Job) (r : StatsReport)
    (hr : compute_stats jobs = Except.ok r) (k : String) :
    lookupS k r.jobs_per_tech =
      (if (jobs.filter (fun j => decide (techLabel j = k))).length = 0 then Option.none
        else some ((jobs.filter (fun j => decide (techLabel j = k))).length)) ∧
    lookupS k r.jobs_per_address =
      (if (jobs.filter (fun j => decide (addressLabel j = k))).length = 0 then Option.none
        else some ((jobs.filter (fun j => decide (addressLabel j = k))).length)) ∧
    lookupS k r.jobs_per_day =
      (if (jobs.filter (fun j => decide (dateKey j = k))).length = 0 then Option.none
        else some ((jobs.filter (fun j => decide (dateKey j = k))).length)) := by
  cases jobs with
  | nil =>
    have hr' : Except.ok emptyReport = Except.ok r := hr
    injection hr' with hh
    subst hh
    exact ⟨rfl, rfl, rfl⟩
  | cons j js =>
    obtain ⟨ds, hds, hr'⟩ := compute_stats_ok_nonempty hr
    subst hr'
    exact ⟨lookupS_counter_label techLabel (j :: js) k,
      lookupS_counter_label addressLabel (j :: js) k,
      lookupS_counter_label dateKey (j :: js) k⟩

/-- Concrete check of C8 at the label "Jose" (two records). -/
theorem C8_groupings_witness :
    compute_stats witnessJobs = Except.ok witnessReport ∧
      (lookupS "Jose" witnessReport.jobs_per_tech =
        (if (witnessJobs.filter (fun j => decide (techLabel j = "Jose"))).length = 0
          then Option.none
          else some ((witnessJobs.filter (fun j => decide (techLabel j = "Jose"))).length)) ∧
      lookupS "Jose" witnessReport.jobs_per_address =
        (if (witnessJobs.filter (fun j => decide (addressLabel j = "Jose"))).length = 0
          then Option.none
          else some ((witnessJobs.filter (fun j => decide (addressLabel j = "Jose"))).length)) ∧
      lookupS "Jose" witnessReport.jobs_per_day =
        (if (witnessJobs.filter (fun j => decide (dateKey j = "Jose"))).length = 0
          then Option.none
          else some ((witnessJobs.filter (fun j => decide (dateKey j = "Jose"))).length))) :=
  ⟨rfl, C8_groupings witnessJobs witnessReport rfl "Jose"⟩
